import Mathlib

/-!
# Local portfolio tracker: cost-basis ledger, verified model

A shallow embedding of the cost-basis ledger of the portfolio tracker
(`src/currency.rs`, `src/portfolio.rs`, `src/trade.rs`, `src/tx.rs`,
`src/quote.rs`), with theorems checking the natural-language specification
against the code.

Modelling conventions:
* `rust_decimal::Decimal` values are modelled as exact rationals (`ℚ`); the
  spec's numeric-semantics section prescribes exact decimal arithmetic with
  full-precision division, and every concrete instance appearing in the
  claims is division-exact, so the rational model agrees with the code there.
  Division by zero, which panics in `rust_decimal`, is modelled as an
  explicit `divByZero` outcome rather than Lean's total division.
* `HashMap<Currency, Position>` is modelled as a function
  `Currency → Option Position`; `entry(..).or_insert(..)` becomes
  `entryOrInsert`, which (like the Rust API) inserts a fresh position
  *before* any subsequent check runs.
* Rust panics (slice indexing out of bounds, division by zero, `unwrap` on
  `None`) are modelled as explicit `panik` outcomes so that reachability of
  a panic is a provable statement.
* Wall-clock time (`OffsetDateTime::now_utc()`) is a parameter `now`.
-/

namespace PortfolioTracker

/-! ## String primitives

Rust's `str` operations are modelled by structural recursion on the
character list of the string, so that concrete instances evaluate inside
proofs. `Char.toUpper` agrees with `to_ascii_uppercase` (and with
`to_uppercase` on the ASCII strings handled here); `Char.isWhitespace`
matches the whitespace characters appearing in trade data. -/

/-- ASCII uppercase of a character list (`str::to_uppercase` /
`to_ascii_uppercase`). -/
def upperChars (l : List Char) : List Char := l.map Char.toUpper

/-- Models `str::to_uppercase` as a string-to-string map. -/
def upperStr (s : String) : String := ⟨upperChars s.data⟩

/-- Models `str::trim`: drop leading and trailing whitespace. -/
def trimChars (l : List Char) : List Char :=
  ((l.dropWhile Char.isWhitespace).reverse.dropWhile Char.isWhitespace).reverse

/-- Models `str::trim` as a string-to-string map. -/
def trimStr (s : String) : String := ⟨trimChars s.data⟩

/-- Models `str::split(p)` on a character list: one (possibly empty) piece per
separator gap, `[[]]` on the empty list. -/
def splitBy (p : Char → Bool) : List Char → List (List Char)
  | [] => [[]]
  | c :: rest =>
    if p c then [] :: splitBy p rest
    else
      match splitBy p rest with
      | [] => [[c]]
      | h :: t => (c :: h) :: t

/-- Models `str::split(sep)` for a single separator character. -/
def splitChar (sep : Char) (l : List Char) : List (List Char) :=
  splitBy (fun c => c = sep) l

/-! ## Currency registry (`src/currency.rs`) -/

/-- Supported fiat currencies (static `FIAT` in `src/currency.rs`). -/
def FIAT : List String := ["USD", "EUR", "CAD"]

/-- Supported stablecoins (static `STABLES` in `src/currency.rs`). -/
def STABLES : List String := ["USDC", "USDT", "USDS", "DAI", "USDE"]

/-- Supported cryptocurrencies (static `CRYPTO` in `src/currency.rs`). -/
def CRYPTO : List String :=
  ["BTC", "ETH", "XRP", "BNB", "SOL", "TRX", "DOGE", "ADA", "BCH", "LINK",
   "HYPE", "LEO", "WETH", "XLM", "XMR", "SUI", "AVAX", "LTC", "HBAR", "ZEC",
   "SHIB", "CRO", "TON", "DOT", "UNI", "MNT", "AAVE", "TAO", "BGB", "M", "S",
   "OKB", "NEAR", "ASTER", "ETC", "ICP", "PI", "PEPE", "RAIN", "PUMP", "ONDO",
   "HTX", "JLP", "KAS"]

inductive CurrencyType where
  | Crypto
  | Fiat
  | StableCoin
deriving DecidableEq, Repr

/-- Models `classify_ticker` in `src/currency.rs`: fiat, then stablecoin, then
crypto; `none` when the ticker is in no allow-list. -/
def classify_ticker (ticker : String) : Option CurrencyType :=
  if ticker ∈ FIAT then some CurrencyType.Fiat
  else if ticker ∈ STABLES then some CurrencyType.StableCoin
  else if ticker ∈ CRYPTO then some CurrencyType.Crypto
  else none

/-- Models `normalize_ticker` in `src/currency.rs`: trim whitespace and uppercase
(ASCII). -/
def normalize_ticker (s : String) : String := upperStr (trimStr s)

/-- A validated currency ticker (struct `Currency` in `src/currency.rs`).
The ledger compares currencies by their normalized ticker. -/
structure Currency where
  ticker : String
deriving DecidableEq, Repr

/-- Models `Currency::from_ticker` / `Currency::new` in `src/currency.rs`:
normalize, then fail unless the ticker classifies. -/
def Currency.from_ticker (s : String) : Except String Currency :=
  let t := normalize_ticker s
  match classify_ticker t with
  | some _ => Except.ok ⟨t⟩
  | none => Except.error ("Unsupported ticker " ++ t)

/-- The valuation currency. -/
def usd : Currency := ⟨"USD"⟩

/-- Bitcoin, used in concrete scenarios. -/
def btc : Currency := ⟨"BTC"⟩

/-! ## Positions and portfolios (`src/portfolio.rs`) -/

/-- Per-currency ledger entry (struct `Position` in `src/portfolio.rs`). -/
structure Position where
  currency : Currency
  balance : ℚ
  cost_base : ℚ
deriving DecidableEq, Repr

/-- Models `Position::new`: zero balance and cost basis. -/
def Position.new (c : Currency) : Position := ⟨c, 0, 0⟩

/-- Struct `Portfolio` in `src/portfolio.rs`: the
`HashMap<Currency, Position>` is modelled as a function to `Option`. -/
structure Portfolio where
  positions : Currency → Option Position

/-- Models `Portfolio::new`: the empty map. -/
def Portfolio.empty : Portfolio := ⟨fun _ => none⟩

/-- Insert or replace the entry for currency `c`. -/
def Portfolio.insertPos (pf : Portfolio) (c : Currency) (p : Position) :
    Portfolio :=
  ⟨fun c' => if c' = c then some p else pf.positions c'⟩

/-- Models `positions.entry(c).or_insert(Position::new(c))`: returns the map after
the (possible) insertion together with the entry's current value. The
insertion happens before any check that follows it in the Rust code. -/
def Portfolio.entryOrInsert (pf : Portfolio) (c : Currency) :
    Portfolio × Position :=
  match pf.positions c with
  | some p => (pf, p)
  | none => (pf.insertPos c (Position.new c), Position.new c)

/-- Models `Portfolio::deposit` (`src/portfolio.rs` lines 24-40). `q` models
`quote::tmp::quote_usd`, whose source file is absent from the snapshot; per
the spec (§4.4) it is the current USD quote of the currency. The Rust
function returns `Result` but never fails. -/
def Portfolio.deposit (q : Currency → ℚ) (pf : Portfolio) (currency : Currency)
    (amount : ℚ) : Portfolio :=
  let ep := pf.entryOrInsert currency
  let pos := ep.2
  let pos' : Position :=
    { pos with
      balance := pos.balance + amount
      cost_base :=
        if currency = usd then pos.cost_base + amount
        else pos.cost_base + amount * q currency }
  ep.1.insertPos currency pos'

/-! ## Exchange transactions (`src/tx.rs`) -/

/-- Struct `Tx` in `src/tx.rs`: give `sell_size` of `sell`, receive
`buy_size` of `buy`. -/
structure Tx where
  buy : Currency
  buy_size : ℚ
  sell : Currency
  sell_size : ℚ
deriving DecidableEq, Repr

/-- Outcome of `Portfolio::add_tx`. The Rust method mutates `self` and
returns `Result<()>`, so both the `ok` and the `insufficientBalance`
outcome carry the portfolio as left by the call; `divByZero` marks the
panic of `Decimal` division by a zero divisor. -/
inductive AddTxResult where
  | ok (pf : Portfolio)
  | insufficientBalance (pf : Portfolio)
  | divByZero

/-- Models `Portfolio::add_tx` (`src/portfolio.rs` lines 46-81): lazily create the
sell position, bail out when its balance is below `sell_size`, remove the
proportional cost basis (average unit cost `1` for USD, else
`cost_base / balance`), then credit the buy position. -/
def Portfolio.addTx (pf : Portfolio) (tx : Tx) : AddTxResult :=
  let ep := pf.entryOrInsert tx.sell
  let pf1 := ep.1
  let sell_pos := ep.2
  if sell_pos.balance < tx.sell_size then
    AddTxResult.insufficientBalance pf1
  else
    let avg_cost? : Option ℚ :=
      if tx.sell.ticker = "USD" then some 1
      else if sell_pos.balance = 0 then none
      else some (sell_pos.cost_base / sell_pos.balance)
    match avg_cost? with
    | none => AddTxResult.divByZero
    | some avg_cost =>
      let cost_basis_sold := avg_cost * tx.sell_size
      let pf2 := pf1.insertPos tx.sell
        { sell_pos with
          balance := sell_pos.balance - tx.sell_size
          cost_base := sell_pos.cost_base - cost_basis_sold }
      let ep2 := pf2.entryOrInsert tx.buy
      let buy_pos := ep2.2
      let pf3 := ep2.1.insertPos tx.buy
        { buy_pos with
          balance := buy_pos.balance + tx.buy_size
          cost_base := buy_pos.cost_base + cost_basis_sold }
      AddTxResult.ok pf3

/-! ## Trades (`src/trade.rs`) -/

/-- Enum `Side` in `src/trade.rs`. -/
inductive Side where
  | Buy
  | Sell
deriving DecidableEq, Repr

/-- Models `Side`'s serializer (`rename_all = "UPPERCASE"`). -/
def Side.serialize : Side → String
  | Side.Buy => "BUY"
  | Side.Sell => "SELL"

/-- Models `Side`'s deserializer: trim, uppercase, match `BUY`/`SELL`. -/
def Side.deserialize (s : String) : Except String Side :=
  match upperStr (trimStr s) with
  | "BUY" => Except.ok Side.Buy
  | "SELL" => Except.ok Side.Sell
  | other => Except.error ("unknown variant " ++ other)

/-- Enum `QuoteCurrency` in `src/quote_currency.rs`. -/
inductive QuoteCurrency where
  | Usd
  | Btc
deriving DecidableEq, Repr

/-- Models `Display for QuoteCurrency`. -/
def QuoteCurrency.toStr : QuoteCurrency → String
  | QuoteCurrency.Usd => "USD"
  | QuoteCurrency.Btc => "BTC"

/-- Models `FromStr for QuoteCurrency`: uppercase, then match. -/
def QuoteCurrency.fromStr (s : String) : Except String QuoteCurrency :=
  match upperStr s with
  | "USD" => Except.ok QuoteCurrency.Usd
  | "BTC" => Except.ok QuoteCurrency.Btc
  | other => Except.error ("Invalid currency: " ++ other)

/-- Base leg of a trading pair. Modelled from the spec: the `Ticker` type of
the currency module is absent from the snapshot (`src/trade.rs` imports it
from `crate::currency`); per §3 of the spec the only invariant on the base
part is that it is non-empty, so `from_str` accepts any non-empty string
unchanged. -/
structure Ticker where
  id : String
deriving DecidableEq, Repr

/-- Modelled from the spec: `Ticker::from_str` (source absent), accepting
any non-empty ticker string. -/
def Ticker.fromStr (s : String) : Except String Ticker :=
  if s = "" then Except.error "empty ticker" else Except.ok ⟨s⟩

/-- Struct `TradingPair` as defined in `src/trade.rs` (lines 158-209). -/
structure TradingPair where
  base : Ticker
  quote : QuoteCurrency
deriving DecidableEq, Repr

/-- A timestamped instant: `OffsetDateTime`, restricted to its Unix
seconds-plus-nanoseconds view. `now_utc()` carries a nonzero `nanos`
component; values built by `from_unix_timestamp` have `nanos = 0`. -/
structure DateTime where
  secs : ℤ
  nanos : ℕ
deriving DecidableEq, Repr

/-- Struct `Trade` in `src/trade.rs` (lines 27-41). -/
structure Trade where
  created_at : DateTime
  pair : TradingPair
  side : Side
  amount : ℚ
  price : ℚ
  fee : ℚ
deriving DecidableEq, Repr

/-- Models `Trade::to_tx` (`src/trade.rs` lines 44-59): a Buy exchanges
`amount*price + fee` of the quote currency for `amount` of the base; a Sell
exchanges `amount` of the base for `amount*price - fee` of the quote. -/
def Trade.to_tx (t : Trade) : Except String Tx :=
  match t.side with
  | Side.Buy => do
    let b ← Currency.from_ticker t.pair.base.id
    let s ← Currency.from_ticker t.pair.quote.toStr
    Except.ok ⟨b, t.amount, s, t.amount * t.price + t.fee⟩
  | Side.Sell => do
    let b ← Currency.from_ticker t.pair.quote.toStr
    let s ← Currency.from_ticker t.pair.base.id
    Except.ok ⟨b, t.amount * t.price - t.fee, s, t.amount⟩

/-! ## Timestamp (de)serialization (`ts_seconds` in `src/trade.rs`) -/

/-- Models `MIN_TIMESTAMP` in `src/trade.rs`: January 3, 2009 at 00:00:00 UTC. -/
def MIN_TIMESTAMP : ℤ := 1231027200

/-- Largest Unix timestamp `OffsetDateTime::from_unix_timestamp` accepts
(9999-12-31T23:59:59Z). -/
def MAX_UNIX_TIMESTAMP : ℤ := 253402300799

/-- Models `ts_seconds::serialize`: emit the whole-second Unix timestamp,
truncating any sub-second component. -/
def ts_serialize (dt : DateTime) : ℤ := dt.secs

/-- Models `ts_seconds::deserialize` (`src/trade.rs` lines 104-132): reject
timestamps before `MIN_TIMESTAMP`, reject timestamps strictly after the
current wall clock `now`, then build the instant via
`OffsetDateTime::from_unix_timestamp` (which fails outside its own range). -/
def ts_deserialize (now ts : ℤ) : Except String DateTime :=
  if ts < MIN_TIMESTAMP then
    Except.error "timestamp is before minimum allowed date (2009-01-03)"
  else if now < ts then
    Except.error "timestamp is in the future"
  else if ts < -377705116800 ∨ MAX_UNIX_TIMESTAMP < ts then
    Except.error "timestamp out of range"
  else
    Except.ok ⟨ts, 0⟩

/-! ## TradingPair (de)serialization (`src/trade.rs` lines 164-209) -/

/-- Models `Serialize for TradingPair`: `format!("{}/{}", base, quote)`
uppercased. -/
def TradingPair.serialize (p : TradingPair) : String :=
  ⟨upperChars (p.base.id.data ++ '/' :: p.quote.toStr.data)⟩

/-- Models `Deserialize for TradingPair` as written in `src/trade.rs` (the
USD-only quote check present in `src/trading_pair.rs` is commented out in
this copy): split on `/`, uppercase the parts, require exactly two parts
and a non-blank base (`parts[0].trim().is_empty()`, i.e. not all
whitespace), then parse base ticker and quote currency. -/
def TradingPair.deserialize (s : String) : Except String TradingPair :=
  let parts : List String :=
    (splitChar '/' s.data).map (fun l => String.mk (upperChars l))
  match parts with
  | [p0, p1] =>
    if p0.data.all Char.isWhitespace then Except.error "base can't be empty"
    else do
      let b ← Ticker.fromStr p0
      let q ← QuoteCurrency.fromStr p1
      Except.ok ⟨b, q⟩
  | _ => Except.error ("expected format BASE/QUOTE, got " ++ s)

/-- The §3/§4.2 invariants a `Trade` admitted into the ledger satisfies:
timestamp between the fixed floor and the wall clock `now`, and strictly
positive amount, price and fee. -/
def ValidTrade (now : ℤ) (t : Trade) : Prop :=
  MIN_TIMESTAMP ≤ t.created_at.secs ∧ t.created_at.secs ≤ now ∧
    0 < t.amount ∧ 0 < t.price ∧ 0 < t.fee

instance (now : ℤ) (t : Trade) : Decidable (ValidTrade now t) := by
  unfold ValidTrade; infer_instance

/-! ## `Tx::parse` (`src/tx.rs` lines 16-45) -/

/-- Outcome of a Rust function that can return `Ok`, return `Err`, or
panic. -/
inductive RustResult (α : Type) where
  | ok (a : α)
  | err (msg : String)
  | panik (msg : String)

/-- Models `str::split_ascii_whitespace`: whitespace-separated tokens, empties
dropped. -/
def tokenize (s : String) : List String :=
  ((splitBy Char.isWhitespace s.data).map String.mk).filter (fun t => t ≠ "")

/-- Numeric value of a digit list (most significant first). -/
def digitsVal (l : List Char) : ℕ :=
  l.foldl (fun n c => 10 * n + (c.toNat - 48)) 0

/-- Models `Decimal::from_str` on plain decimal literals: optional sign, digits,
at most one decimal point (scientific notation is not accepted by
`from_str`; the 28-digit capacity limit is not modelled since every string
the claims evaluate is short). -/
def decStrToRat? (s : String) : Option ℚ :=
  let signAndBody : Bool × List Char :=
    match s.data with
    | '-' :: rest => (true, rest)
    | '+' :: rest => (false, rest)
    | l => (false, l)
  let neg := signAndBody.1
  let sign : ℚ := if neg then -1 else 1
  match splitChar '.' signAndBody.2 with
  | [ip] =>
    if ip.all Char.isDigit ∧ ip ≠ [] then some (sign * digitsVal ip) else none
  | [ip, fp] =>
    if (ip.all Char.isDigit ∧ fp.all Char.isDigit) ∧ (ip ≠ [] ∧ fp ≠ []) then
      some (sign * ((digitsVal ip : ℚ) + (digitsVal fp : ℚ) / 10 ^ fp.length))
    else none
  | _ => none

/-- Models `Tx::parse`: take the first two numeric tokens as buy and sell sizes,
then read the currencies from token positions 1 and 4 of the uppercased
token list. The positional indexing `str_split[1]` / `str_split[4]` has no
bounds check in the source; an out-of-range index is a panic. -/
def Tx.parse (s : String) : RustResult Tx :=
  let toks := tokenize s
  let amounts := toks.filterMap decStrToRat?
  match amounts with
  | [] => RustResult.err "missing buy amount"
  | [_] => RustResult.err "missing sell amount"
  | buyAmt :: sellAmt :: _ =>
    let str_split := toks.map upperStr
    match str_split[1]? with
    | none => RustResult.panik "index out of bounds: the len is less than 2"
    | some t1 =>
      match Currency.from_ticker t1 with
      | Except.error _ => RustResult.err "parse buy ticker err"
      | Except.ok buyCur =>
        match str_split[4]? with
        | none => RustResult.panik "index out of bounds: the len is less than 5"
        | some t4 =>
          match Currency.from_ticker t4 with
          | Except.error _ => RustResult.err "prase sell ticker err"
          | Except.ok sellCur => RustResult.ok ⟨buyCur, buyAmt, sellCur, sellAmt⟩

/-! ## Quote lookup (`src/quote.rs`) -/

/-- A `(id, symbol, name)` row of the price-id lookup table. -/
structure Coin where
  id : String
  symbol : String
  name : String

/-- The `symbol_to_id` map built in `to_ids`: keys are uppercased symbols;
collecting into a `HashMap` lets later rows override earlier ones. -/
def symbolToId (table : List Coin) (key : String) : Option String :=
  (table.reverse.find? (fun c => upperStr c.symbol = key)).map Coin.id

/-- Models `to_ids` (`src/quote.rs` lines 111-135): resolve every ticker to its
provider id in order; `collect::<Result<Vec<_>, _>>()` short-circuits at
the first ticker with no table entry, which is written here as the
equivalent structural recursion. -/
def to_ids (table : List Coin) : List String → Except String (List String)
  | [] => Except.ok []
  | t :: ts =>
    match symbolToId table (upperStr t) with
    | none => Except.error ("Ticker not found: " ++ t)
    | some id =>
      match to_ids table ts with
      | Except.error e => Except.error e
      | Except.ok ids => Except.ok (id :: ids)

/-- The id→ticker map zipped in `get_quotes`; duplicate ids keep the later
binding, as a `HashMap` collect does. -/
def idToTicker (m : List (String × String)) (key : String) : Option String :=
  (m.reverse.find? (fun p => p.1 = key)).map Prod.snd

/-- Models `get_quotes` (`src/quote.rs` lines 35-54). The network fetch and its
JSON decoding are an external collaborator, passed as `fetch : ids ↦ id
price pairs`; prices are carried through unchanged. The `unwrap` on the
id→ticker translation is a panic when the fetch returns an unknown id. -/
def get_quotes (table : List Coin) (fetch : List String → List (String × ℚ))
    (tickers : List String) : RustResult (List (String × ℚ)) :=
  match to_ids table tickers with
  | Except.error e => RustResult.err e
  | Except.ok ids =>
    let id_ticker := ids.zip tickers
    match (fetch ids).mapM
        (fun p => (idToTicker id_ticker p.1).map (fun t => (t, p.2))) with
    | none => RustResult.panik "called Option.unwrap on a None value"
    | some quotes => RustResult.ok quotes

/-! ## Replay (`Portfolio::from_csv`, `src/portfolio.rs` lines 83-98) -/

/-- The loop of `Portfolio::from_csv`, replaying already-deserialized
trades against a starting portfolio: for each trade in order, first the
temporary auto-deposit of `amount*price + fee` USD when the trade's quote
currency is USD, then `add_tx(trade.to_tx()?)?`; the `?` operators abort
the whole replay at the first error, and a `Decimal` division panic
escapes as a panic. -/
def replayFrom (q : Currency → ℚ) (pf : Portfolio) :
    List Trade → RustResult Portfolio
  | [] => RustResult.ok pf
  | t :: ts =>
    let pf1 :=
      if t.pair.quote = QuoteCurrency.Usd then
        pf.deposit q usd (t.amount * t.price + t.fee)
      else pf
    match t.to_tx with
    | Except.error e => RustResult.err e
    | Except.ok tx =>
      match pf1.addTx tx with
      | AddTxResult.ok pf2 => replayFrom q pf2 ts
      | AddTxResult.insufficientBalance _ => RustResult.err "Insufficient balance"
      | AddTxResult.divByZero => RustResult.panik "Division by zero"

/-- Models `Portfolio::from_csv` after the CSV rows have been deserialized into
trades: replay from the empty portfolio. -/
def Portfolio.fromTrades (q : Currency → ℚ) (trades : List Trade) :
    RustResult Portfolio :=
  replayFrom q Portfolio.empty trades

/-- Sequential composition on `RustResult`, propagating errors and
panics. -/
def RustResult.bind {α β : Type} :
    RustResult α → (α → RustResult β) → RustResult β
  | RustResult.ok a, f => f a
  | RustResult.err e, _ => RustResult.err e
  | RustResult.panik m, _ => RustResult.panik m

/-- One replay step as the spec describes the (corrected) fold: the
auto-deposit for USD-quoted trades followed by `apply_exchange` of the
translated trade. -/
def replayStep (q : Currency → ℚ) (pf : Portfolio) (t : Trade) :
    RustResult Portfolio :=
  let pf1 :=
    if t.pair.quote = QuoteCurrency.Usd then
      pf.deposit q usd (t.amount * t.price + t.fee)
    else pf
  match t.to_tx with
  | Except.error e => RustResult.err e
  | Except.ok tx =>
    match pf1.addTx tx with
    | AddTxResult.ok pf2 => RustResult.ok pf2
    | AddTxResult.insufficientBalance _ => RustResult.err "Insufficient balance"
    | AddTxResult.divByZero => RustResult.panik "Division by zero"

/-- One replay step as claim C4 words it: `apply_exchange` of the
translated trade and nothing else. -/
def claimStep (pf : Portfolio) (t : Trade) : RustResult Portfolio :=
  match t.to_tx with
  | Except.error e => RustResult.err e
  | Except.ok tx =>
    match pf.addTx tx with
    | AddTxResult.ok pf2 => RustResult.ok pf2
    | AddTxResult.insufficientBalance _ => RustResult.err "Insufficient balance"
    | AddTxResult.divByZero => RustResult.panik "Division by zero"

/-- The fold, in trade order, of a step function over the trade list,
aborting at the first error. -/
def replayFold (step : Portfolio → Trade → RustResult Portfolio)
    (pf : Portfolio) (trades : List Trade) : RustResult Portfolio :=
  trades.foldl (fun r t => r.bind (fun pf' => step pf' t)) (RustResult.ok pf)

/-! ## Operation sequences for the ledger invariant (§8) -/

/-- A ledger mutation: a deposit or an exchange. -/
inductive Op where
  | dep (currency : Currency) (amount : ℚ)
  | exch (tx : Tx)

/-- Run a sequence of deposits and exchanges, `none` as soon as an
exchange does not return `Ok` (insufficient balance or division panic). -/
def runOps (q : Currency → ℚ) (pf : Portfolio) : List Op → Option Portfolio
  | [] => some pf
  | Op.dep c a :: rest => runOps q (pf.deposit q c a) rest
  | Op.exch tx :: rest =>
    match pf.addTx tx with
    | AddTxResult.ok pf' => runOps q pf' rest
    | _ => none

/-! ## Projections and concrete scenarios used in the theorems -/

/-- Positions map of the portfolio carried by an `ok` outcome. -/
def AddTxResult.posAfterOk (r : AddTxResult) (c : Currency) :
    Option (Option Position) :=
  match r with
  | AddTxResult.ok pf => some (pf.positions c)
  | _ => none

/-- Positions map of the portfolio carried by an `insufficientBalance`
outcome. -/
def AddTxResult.posAfterInsufficient (r : AddTxResult) (c : Currency) :
    Option (Option Position) :=
  match r with
  | AddTxResult.insufficientBalance pf => some (pf.positions c)
  | _ => none

/-- Positions map of the portfolio carried by an `ok` replay outcome. -/
def replayPos? (r : RustResult Portfolio) (c : Currency) :
    Option (Option Position) :=
  match r with
  | RustResult.ok pf => some (pf.positions c)
  | _ => none

/-- Every position of the portfolio has nonnegative balance, and
nonnegative cost basis when it is not the valuation currency. -/
def PortfolioNonneg (pf : Portfolio) : Prop :=
  ∀ c p, pf.positions c = some p →
    0 ≤ p.balance ∧ (c.ticker ≠ "USD" → 0 ≤ p.cost_base)

/-- Holds when the portfolio inside an optional result satisfies
`PortfolioNonneg` (vacuously true when the run failed). -/
def OptPortfolioNonneg : Option Portfolio → Prop
  | some pf => PortfolioNonneg pf
  | none => True

/-- Deposits have positive amounts; exchanges have positive sell size and
nonnegative buy size (a `Tx` translated from a validated trade always has
a positive sell size; its buy size is `amount*price - fee` on a sell
trade, nonnegative whenever the fee does not exceed the proceeds). -/
def OpsWellFormed (ops : List Op) : Prop :=
  ∀ op ∈ ops,
    match op with
    | Op.dep _ a => 0 < a
    | Op.exch tx => 0 < tx.sell_size ∧ 0 ≤ tx.buy_size

/-- A quote function mapping every currency to zero (the auto-deposit
path of the replay only quotes USD, which bypasses it). -/
def qZero : Currency → ℚ := fun _ => 0

/-- Models `BUY 1 BTC/USD @ 2 fee 1`: a valid trade whose replay needs the
automatic USD deposit to succeed. -/
def tradeAuto : Trade :=
  ⟨⟨1704883200, 0⟩, ⟨⟨"BTC"⟩, QuoteCurrency.Usd⟩, Side.Buy, 1, 2, 1⟩

/-- Models `BUY 1 BTC/USD @ 3 fee 1`: translates to giving 4 USD for 1 BTC. -/
def tradeA : Trade :=
  ⟨⟨1704883200, 0⟩, ⟨⟨"BTC"⟩, QuoteCurrency.Usd⟩, Side.Buy, 1, 3, 1⟩

/-- Models `SELL 1 BTC/USD @ 9 fee 1`: translates to giving 1 BTC for 8 USD. -/
def tradeB : Trade :=
  ⟨⟨1704883200, 0⟩, ⟨⟨"BTC"⟩, QuoteCurrency.Usd⟩, Side.Sell, 1, 9, 1⟩

/-- Models `BUY 2 BTC/USD @ 3.5 fee 1`: translates to giving 8 USD for 2 BTC. -/
def tradeC : Trade :=
  ⟨⟨1704883200, 0⟩, ⟨⟨"BTC"⟩, QuoteCurrency.Usd⟩, Side.Buy, 2, 7 / 2, 1⟩

/-- The operation sequence of the trades `tradeA`, `tradeB`, `tradeC`
after an initial 4 USD deposit. -/
def opsNegCost : List Op :=
  [Op.dep usd 4, Op.exch ⟨btc, 1, usd, 4⟩, Op.exch ⟨usd, 8, btc, 1⟩,
   Op.exch ⟨btc, 2, usd, 8⟩]

/-- A trade carrying a sub-second timestamp component, as
`trade::tx_to_csv` builds from `OffsetDateTime::now_utc()`. -/
def tradeSub : Trade :=
  ⟨⟨1704883200, 500000000⟩, ⟨⟨"BTC"⟩, QuoteCurrency.Usd⟩, Side.Buy, 1, 2, 1⟩

/-- The position the ledger sees for currency `c` before an update: the
stored entry, or a fresh zero position about to be lazily inserted. -/
def pos0 (pf : Portfolio) (c : Currency) : Position :=
  (pf.positions c).getD (Position.new c)

/-- The sell position after a successful `add_tx` with average unit cost
`avg`. -/
def sellUpd (pf : Portfolio) (tx : Tx) (avg : ℚ) : Position :=
  { pos0 pf tx.sell with
    balance := (pos0 pf tx.sell).balance - tx.sell_size
    cost_base := (pos0 pf tx.sell).cost_base - avg * tx.sell_size }

/-- The buy position a successful `add_tx` starts from: when the buy and
sell currencies coincide this is the just-updated sell position, else the
stored (or fresh) buy entry. -/
def buyBase (pf : Portfolio) (tx : Tx) (avg : ℚ) : Position :=
  if tx.buy = tx.sell then sellUpd pf tx avg else pos0 pf tx.buy

/-- The buy position after a successful `add_tx`. -/
def buyUpd (pf : Portfolio) (tx : Tx) (avg : ℚ) : Position :=
  { buyBase pf tx avg with
    balance := (buyBase pf tx avg).balance + tx.buy_size
    cost_base := (buyBase pf tx avg).cost_base + avg * tx.sell_size }

/-- The position for currency `c` after `deposit q pf c a`. -/
def depUpd (q : Currency → ℚ) (pf : Portfolio) (c : Currency) (a : ℚ) :
    Position :=
  { pos0 pf c with
    balance := (pos0 pf c).balance + a
    cost_base :=
      if c = usd then (pos0 pf c).cost_base + a
      else (pos0 pf c).cost_base + a * q c }

/-- The average unit cost `add_tx` computes for the sell position:
`1` for USD, undefined (`none`, a division panic) for a zero balance, else
`cost_base / balance`. -/
def avgCost? (pf : Portfolio) (tx : Tx) : Option ℚ :=
  if tx.sell.ticker = "USD" then some 1
  else if (pos0 pf tx.sell).balance = 0 then none
  else some ((pos0 pf tx.sell).cost_base / (pos0 pf tx.sell).balance)

/-! ## Helper lemmas -/

theorem positions_insertPos_self (pf : Portfolio) (c : Currency) (p : Position) :
    (pf.insertPos c p).positions c = some p := by
  simp [Portfolio.insertPos]

theorem positions_insertPos_ne (pf : Portfolio) (c : Currency) (p : Position)
    (c' : Currency) (h : c' ≠ c) :
    (pf.insertPos c p).positions c' = pf.positions c' := by
  simp [Portfolio.insertPos, h]

theorem entryOrInsert_snd (pf : Portfolio) (c : Currency) :
    (pf.entryOrInsert c).2 = pos0 pf c := by
  unfold Portfolio.entryOrInsert pos0
  rcases pf.positions c <;> simp

theorem entryOrInsert_fst_positions (pf : Portfolio) (c c' : Currency) :
    (pf.entryOrInsert c).1.positions c' =
      if c' = c then some (pos0 pf c) else pf.positions c' := by
  unfold Portfolio.entryOrInsert pos0
  rcases h : pf.positions c with _ | p
  · simp [Portfolio.insertPos]
  · by_cases he : c' = c <;> simp [he, h]

theorem insert_after_entry (pf : Portfolio) (c : Currency) (p : Position)
    (c' : Currency) :
    ((pf.entryOrInsert c).1.insertPos c p).positions c' =
      if c' = c then some p else pf.positions c' := by
  by_cases h : c' = c
  · subst h
    simp [Portfolio.insertPos]
  · rw [positions_insertPos_ne _ _ _ _ h, entryOrInsert_fst_positions, if_neg h,
      if_neg h]

theorem deposit_positions (q : Currency → ℚ) (pf : Portfolio) (c : Currency)
    (a : ℚ) (c' : Currency) :
    (pf.deposit q c a).positions c' =
      if c' = c then some (depUpd q pf c a) else pf.positions c' := by
  have h := insert_after_entry pf c (depUpd q pf c a) c'
  calc (pf.deposit q c a).positions c'
      = ((pf.entryOrInsert c).1.insertPos c (depUpd q pf c a)).positions c' := by
        simp only [Portfolio.deposit, depUpd, entryOrInsert_snd]
    _ = if c' = c then some (depUpd q pf c a) else pf.positions c' := h

/-- Successful `add_tx` characterized pointwise: with average unit cost
`avg`, the sell position loses `sell_size` units and `avg * sell_size`
cost basis, the buy position (the updated sell position itself when the
two currencies coincide) gains `buy_size` units and `avg * sell_size`
cost basis, and every other entry is untouched. -/
theorem addTx_ok_char (pf : Portfolio) (tx : Tx) (avg : ℚ)
    (hguard : ¬ (pos0 pf tx.sell).balance < tx.sell_size)
    (havg : avgCost? pf tx = some avg) :
    ∃ pf', pf.addTx tx = AddTxResult.ok pf' ∧
      ∀ c, pf'.positions c =
        if c = tx.buy then some (buyUpd pf tx avg)
        else if c = tx.sell then some (sellUpd pf tx avg)
        else pf.positions c := by
  have hsnd : (pf.entryOrInsert tx.sell).2 = pos0 pf tx.sell :=
    entryOrInsert_snd pf tx.sell
  have havg' : (if tx.sell.ticker = "USD" then some (1 : ℚ)
      else if (pos0 pf tx.sell).balance = 0 then none
      else some ((pos0 pf tx.sell).cost_base / (pos0 pf tx.sell).balance))
      = some avg := havg
  have hbb : (((pf.entryOrInsert tx.sell).1.insertPos tx.sell
      (sellUpd pf tx avg)).entryOrInsert tx.buy).2 = buyBase pf tx avg := by
    rw [entryOrInsert_snd]
    unfold pos0 buyBase
    rw [insert_after_entry]
    by_cases htb : tx.buy = tx.sell
    · simp [htb]
    · simp [htb, pos0]
  refine ⟨(((pf.entryOrInsert tx.sell).1.insertPos tx.sell
      (sellUpd pf tx avg)).entryOrInsert tx.buy).1.insertPos tx.buy
      (buyUpd pf tx avg), ?_, ?_⟩
  · simp only [Portfolio.addTx]
    rw [hsnd, if_neg hguard, havg']
    show AddTxResult.ok _ = AddTxResult.ok _
    have hfold : Position.mk (pos0 pf tx.sell).currency
        ((pos0 pf tx.sell).balance - tx.sell_size)
        ((pos0 pf tx.sell).cost_base - avg * tx.sell_size)
        = sellUpd pf tx avg := rfl
    rw [hfold, hbb]
    rfl
  · intro c
    rw [insert_after_entry]
    by_cases hcb : c = tx.buy
    · simp [hcb]
    · rw [if_neg hcb, if_neg hcb]
      by_cases hcs : c = tx.sell
      · subst hcs
        simp [Portfolio.insertPos]
      · rw [positions_insertPos_ne _ _ _ _ hcs, entryOrInsert_fst_positions,
          if_neg hcs, if_neg hcs]

/-! ## C7: the average-cost division is guarded -/

/-- C7: in `Portfolio::add_tx` the division `cost_base / balance` is
guarded: for every transaction with positive `sell_size`, the prior
check `balance < sell_size` makes a zero divisor unreachable, so `add_tx`
never evaluates a division by zero. -/
theorem addTx_never_divides_by_zero (pf : Portfolio) (tx : Tx)
    (h : 0 < tx.sell_size) : pf.addTx tx ≠ AddTxResult.divByZero := by
  unfold Portfolio.addTx
  by_cases hlt : (pf.entryOrInsert tx.sell).2.balance < tx.sell_size
  · simp [hlt]
  · have hbal : (0 : ℚ) < (pf.entryOrInsert tx.sell).2.balance :=
      lt_of_lt_of_le h (not_lt.mp hlt)
    by_cases husd : tx.sell.ticker = "USD"
    · simp [hlt, husd]
    · simp [hlt, husd, ne_of_gt hbal]

/-- Witness for C7 at a concrete input. -/
theorem addTx_never_divides_by_zero_witness :
    (0 : ℚ) < (⟨btc, 1, usd, 1⟩ : Tx).sell_size ∧
      Portfolio.empty.addTx ⟨btc, 1, usd, 1⟩ ≠ AddTxResult.divByZero :=
  ⟨by norm_num,
   addTx_never_divides_by_zero Portfolio.empty ⟨btc, 1, usd, 1⟩ (by norm_num)⟩

/-! ## C1: oversell rejection -/

/-- Counterexample to C1 as stated: on an empty portfolio, an exchange
selling 1 USD fails with insufficient balance, yet the failed call has
inserted a fresh zero USD position into the map, so the set of position
entries is *not* unchanged. -/
theorem addTx_insufficient_inserts_sell_entry :
    (Portfolio.empty.addTx ⟨btc, 1, usd, 1⟩).posAfterInsufficient usd
        = some (some (Position.new usd)) ∧
      Portfolio.empty.positions usd = none := by
  constructor
  · simp [Portfolio.addTx, Portfolio.entryOrInsert, Portfolio.insertPos,
      Portfolio.empty, AddTxResult.posAfterInsufficient, Position.new, btc, usd]
  · rfl

/-- C1 amended: on insufficient balance, `add_tx` returns the
`InsufficientBalance` error; every previously existing position (the sell
currency's included) keeps its exact balance and cost basis, no entry for
any other currency is touched, and the only possible change to the entry
set is the lazily created zero position for the sell currency. -/
theorem addTx_insufficient_preserves_values (pf : Portfolio) (tx : Tx)
    (h : ((pf.positions tx.sell).getD (Position.new tx.sell)).balance
      < tx.sell_size) :
    ∃ pf', pf.addTx tx = AddTxResult.insufficientBalance pf' ∧
      (∀ c, c ≠ tx.sell → pf'.positions c = pf.positions c) ∧
      (∀ p, pf.positions tx.sell = some p → pf'.positions tx.sell = some p) ∧
      (pf.positions tx.sell = none →
        pf'.positions tx.sell = some (Position.new tx.sell)) := by
  unfold Portfolio.addTx
  rcases hc : pf.positions tx.sell with _ | p
  · have hep : pf.entryOrInsert tx.sell
        = (pf.insertPos tx.sell (Position.new tx.sell), Position.new tx.sell) := by
      simp [Portfolio.entryOrInsert, hc]
    have hbal : (Position.new tx.sell).balance < tx.sell_size := by
      simpa [hc] using h
    refine ⟨pf.insertPos tx.sell (Position.new tx.sell), ?_, ?_, ?_, ?_⟩
    · simp [hep, hbal]
    · intro c hcne
      exact positions_insertPos_ne pf tx.sell (Position.new tx.sell) c hcne
    · intro p hp
      simp [hc] at hp
    · intro _
      exact positions_insertPos_self pf tx.sell (Position.new tx.sell)
  · have hep : pf.entryOrInsert tx.sell = (pf, p) := by
      simp [Portfolio.entryOrInsert, hc]
    have hbal : p.balance < tx.sell_size := by
      simpa [hc] using h
    refine ⟨pf, ?_, ?_, ?_, ?_⟩
    · simp [hep, hbal]
    · intro c _
      rfl
    · intro p' hp'
      obtain rfl : p = p' := Option.some.inj hp'
      exact hc
    · intro hnone
      exact absurd hnone (by simp)

/-- Witness for the amended C1 at a concrete input: a portfolio holding
5 USD refuses to sell 10 USD. -/
theorem addTx_insufficient_preserves_values_witness :
    ((((Portfolio.empty.insertPos usd ⟨usd, 5, 5⟩).positions
          (⟨btc, 1, usd, 10⟩ : Tx).sell).getD
        (Position.new (⟨btc, 1, usd, 10⟩ : Tx).sell)).balance
      < (⟨btc, 1, usd, 10⟩ : Tx).sell_size) ∧
      (∃ pf', (Portfolio.empty.insertPos usd ⟨usd, 5, 5⟩).addTx ⟨btc, 1, usd, 10⟩
          = AddTxResult.insufficientBalance pf' ∧
        (∀ c, c ≠ (⟨btc, 1, usd, 10⟩ : Tx).sell →
          pf'.positions c = (Portfolio.empty.insertPos usd ⟨usd, 5, 5⟩).positions c) ∧
        (∀ p, (Portfolio.empty.insertPos usd ⟨usd, 5, 5⟩).positions
            (⟨btc, 1, usd, 10⟩ : Tx).sell = some p →
          pf'.positions (⟨btc, 1, usd, 10⟩ : Tx).sell = some p) ∧
        ((Portfolio.empty.insertPos usd ⟨usd, 5, 5⟩).positions
            (⟨btc, 1, usd, 10⟩ : Tx).sell = none →
          pf'.positions (⟨btc, 1, usd, 10⟩ : Tx).sell
            = some (Position.new (⟨btc, 1, usd, 10⟩ : Tx).sell))) :=
  ⟨by simp [Portfolio.insertPos, Portfolio.empty, usd]; norm_num,
   addTx_insufficient_preserves_values (Portfolio.empty.insertPos usd ⟨usd, 5, 5⟩)
     ⟨btc, 1, usd, 10⟩
     (by simp [Portfolio.insertPos, Portfolio.empty, usd]; norm_num)⟩

/-! ## C2: proportional cost-basis removal on sells -/

/-- C2: for a position with balance `b > 0` and cost basis `c`, a
successful `add_tx` selling `s ≤ b` units of that non-valuation currency
(for a distinct buy currency) leaves the sell position with balance
`b - s` and cost basis exactly `c - (c/b)*s`; selling the entire balance
(`s = b`) leaves the cost basis exactly `0`. -/
theorem addTx_sell_proportional (pf : Portfolio) (tx : Tx) (p : Position)
    (hp : pf.positions tx.sell = some p)
    (hb : 0 < p.balance)
    (husd : tx.sell.ticker ≠ "USD")
    (hne : tx.buy ≠ tx.sell)
    (hs : tx.sell_size ≤ p.balance) :
    ∃ pf', pf.addTx tx = AddTxResult.ok pf' ∧
      pf'.positions tx.sell = some
        (Position.mk p.currency (p.balance - tx.sell_size)
          (p.cost_base - p.cost_base / p.balance * tx.sell_size)) ∧
      (tx.sell_size = p.balance →
        pf'.positions tx.sell = some (Position.mk p.currency 0 0)) := by
  have hpos0 : pos0 pf tx.sell = p := by simp [pos0, hp]
  have hguard : ¬ (pos0 pf tx.sell).balance < tx.sell_size := by
    rw [hpos0]
    exact not_lt.mpr hs
  have hbne : p.balance ≠ 0 := ne_of_gt hb
  have havg : avgCost? pf tx = some (p.cost_base / p.balance) := by
    simp [avgCost?, hpos0, husd, hbne]
  obtain ⟨pf', hok, hchar⟩ := addTx_ok_char pf tx _ hguard havg
  have hsell := hchar tx.sell
  rw [if_neg (Ne.symm hne), if_pos rfl] at hsell
  have hsellUpd : sellUpd pf tx (p.cost_base / p.balance) =
      Position.mk p.currency (p.balance - tx.sell_size)
        (p.cost_base - p.cost_base / p.balance * tx.sell_size) := by
    simp [sellUpd, hpos0]
  refine ⟨pf', hok, ?_, ?_⟩
  · rw [hsell, hsellUpd]
  · intro hsb
    rw [hsell, hsellUpd]
    have h1 : p.balance - tx.sell_size = 0 := by
      rw [hsb]
      ring
    have h2 : p.cost_base - p.cost_base / p.balance * tx.sell_size = 0 := by
      rw [hsb, div_mul_cancel₀ _ hbne]
      ring
    rw [h1, h2]

/-- Witness for C2 at the claim's concrete numbers: from
`balance = 10, cost_base = 100000`, selling 5 units yields
`balance = 5, cost_base = 50000` exactly. -/
theorem addTx_sell_proportional_witness :
    ((0 : ℚ) < 10 ∧ (5 : ℚ) ≤ 10 ∧ btc.ticker ≠ "USD" ∧ usd ≠ btc) ∧
      (∃ pf', (Portfolio.empty.insertPos btc ⟨btc, 10, 100000⟩).addTx
          ⟨usd, 60000, btc, 5⟩ = AddTxResult.ok pf' ∧
        pf'.positions btc = some ⟨btc, 5, 50000⟩) := by
  constructor
  · refine ⟨by norm_num, by norm_num, by decide, by decide⟩
  · obtain ⟨pf', hok, hsell, hfull⟩ :=
      addTx_sell_proportional (Portfolio.empty.insertPos btc ⟨btc, 10, 100000⟩)
        ⟨usd, 60000, btc, 5⟩ ⟨btc, 10, 100000⟩
        (positions_insertPos_self _ _ _) (by norm_num) (by decide) (by decide)
        (by norm_num)
    refine ⟨pf', hok, ?_⟩
    rw [hsell]
    norm_num

/-! ## C3: the trade-to-exchange translation formula -/

/-- C3: for every trade whose base ticker resolves in the currency
registry, `to_tx` produces exactly the spec's exchange: a Buy gives
`amount*price + fee` of the quote for `amount` of the base; a Sell gives
`amount` of the base for `amount*price - fee` of the quote. -/
theorem to_tx_formula (t : Trade) (c : Currency)
    (hb : Currency.from_ticker t.pair.base.id = Except.ok c) :
    t.to_tx = Except.ok (match t.side with
      | Side.Buy => Tx.mk c t.amount ⟨t.pair.quote.toStr⟩
          (t.amount * t.price + t.fee)
      | Side.Sell => Tx.mk ⟨t.pair.quote.toStr⟩
          (t.amount * t.price - t.fee) c t.amount) := by
  have hq : Currency.from_ticker t.pair.quote.toStr
      = Except.ok ⟨t.pair.quote.toStr⟩ := by
    cases t.pair.quote <;> rfl
  cases hside : t.side <;>
    simp [Trade.to_tx, hside, hb, hq] <;>
    rfl

/-- Witness for C3 on the concrete trade `BUY 1 BTC/USD @ 3 fee 1`. -/
theorem to_tx_formula_witness :
    Currency.from_ticker tradeA.pair.base.id = Except.ok btc ∧
      tradeA.to_tx = Except.ok (Tx.mk btc 1 usd 4) := by
  constructor
  · rfl
  · have h := to_tx_formula tradeA btc (by rfl)
    rw [h]
    show Except.ok (Tx.mk btc tradeA.amount ⟨tradeA.pair.quote.toStr⟩
      (tradeA.amount * tradeA.price + tradeA.fee)) = _
    norm_num [tradeA, usd, QuoteCurrency.toStr]

/-! ## C4: the replay is a fold, but with a per-trade auto-deposit -/

theorem replayFold_err (step : Portfolio → Trade → RustResult Portfolio)
    (e : String) (ts : List Trade) :
    ts.foldl (fun r t => r.bind (fun pf' => step pf' t)) (RustResult.err e)
      = RustResult.err e := by
  induction ts with
  | nil => rfl
  | cons t ts ih => exact ih

theorem replayFold_panik (step : Portfolio → Trade → RustResult Portfolio)
    (m : String) (ts : List Trade) :
    ts.foldl (fun r t => r.bind (fun pf' => step pf' t)) (RustResult.panik m)
      = RustResult.panik m := by
  induction ts with
  | nil => rfl
  | cons t ts ih => exact ih

theorem replayFrom_cons (q : Currency → ℚ) (pf : Portfolio) (t : Trade)
    (ts : List Trade) :
    replayFrom q pf (t :: ts)
      = (replayStep q pf t).bind (fun pf2 => replayFrom q pf2 ts) := by
  show (match t.to_tx with
    | Except.error e => RustResult.err e
    | Except.ok tx =>
      match (if t.pair.quote = QuoteCurrency.Usd then
          pf.deposit q usd (t.amount * t.price + t.fee) else pf).addTx tx with
      | AddTxResult.ok pf2 => replayFrom q pf2 ts
      | AddTxResult.insufficientBalance _ => RustResult.err "Insufficient balance"
      | AddTxResult.divByZero => RustResult.panik "Division by zero") = _
  rcases htx : t.to_tx with e | tx
  · simp [replayStep, htx, RustResult.bind]
  · rcases hadd : (if t.pair.quote = QuoteCurrency.Usd then
        pf.deposit q usd (t.amount * t.price + t.fee) else pf).addTx tx with
      pf2 | pf2 | m
    all_goals simp [replayStep, htx, hadd, RustResult.bind]

/-- C4 amended: replaying an ordered trade list is exactly the fold, in
trade order, of one step per trade, where the step is *not* bare
`apply_exchange` of `to_tx`: for a USD-quoted trade it first performs the
automatic deposit of `amount*price + fee` USD and then applies
`apply_exchange` to the translated trade; the fold aborts at the first
trade whose step errors or panics (`RustResult.bind`短 short-circuits), so
no failing trade is skipped. -/
theorem fromTrades_is_fold_with_autodeposit (q : Currency → ℚ)
    (trades : List Trade) :
    Portfolio.fromTrades q trades
      = replayFold (replayStep q) Portfolio.empty trades := by
  suffices h : ∀ ts pf, replayFrom q pf ts = replayFold (replayStep q) pf ts by
    exact h trades Portfolio.empty
  intro ts
  induction ts with
  | nil =>
    intro pf
    rfl
  | cons t ts ih =>
    intro pf
    rw [replayFrom_cons]
    show (replayStep q pf t).bind (fun pf2 => replayFrom q pf2 ts)
      = List.foldl (fun r t => r.bind (fun pf' => replayStep q pf' t))
        (replayStep q pf t) ts
    rcases hstep : replayStep q pf t with pf2 | e | m
    · exact ih pf2
    · exact (replayFold_err (replayStep q) e ts).symm
    · exact (replayFold_panik (replayStep q) m ts).symm

/-- Counterexample to C4 as stated: the single valid trade
`BUY 1 BTC/USD @ 2 fee 1` replays successfully through `from_csv` (the
automatic USD deposit funds it), while the bare fold of `apply_exchange`
over `to_tx` — the claim's description — fails with insufficient balance;
the per-trade auto-deposit is a ledger mutation the claim rules out. -/
theorem fromTrades_counterexample :
    ValidTrade 1704883300 tradeAuto ∧
      replayPos? (Portfolio.fromTrades qZero [tradeAuto]) btc
        = some (some ⟨btc, 1, 3⟩) ∧
      replayFold claimStep Portfolio.empty [tradeAuto]
        = RustResult.err "Insufficient balance" := by
  have htx : tradeAuto.to_tx = Except.ok ⟨btc, 1, usd, 1 * 2 + 1⟩ := rfl
  have hquote : tradeAuto.pair.quote = QuoteCurrency.Usd := rfl
  have hamount : tradeAuto.amount = 1 := rfl
  have hprice : tradeAuto.price = 2 := rfl
  have hfee : tradeAuto.fee = 1 := rfl
  refine ⟨?_, ?_, ?_⟩
  · refine ⟨?_, ?_, ?_, ?_, ?_⟩ <;> norm_num [tradeAuto, MIN_TIMESTAMP]
  · simp [Portfolio.fromTrades, replayFrom, replayPos?, htx, hquote, hamount,
      hprice, hfee, Portfolio.deposit, Portfolio.addTx, Portfolio.entryOrInsert,
      Portfolio.insertPos, Portfolio.empty, Position.new, qZero, btc, usd]
    norm_num
  · simp [replayFold, claimStep, RustResult.bind, htx, Portfolio.addTx,
      Portfolio.entryOrInsert, Portfolio.insertPos, Portfolio.empty,
      Position.new, btc, usd]
    norm_num

/-! ## C5: the non-negativity invariant -/

theorem pos0_nonneg (pf : Portfolio) (c : Currency) (hpf : PortfolioNonneg pf) :
    0 ≤ (pos0 pf c).balance ∧ (c.ticker ≠ "USD" → 0 ≤ (pos0 pf c).cost_base) := by
  unfold pos0
  rcases h : pf.positions c with _ | p
  · simp [Position.new]
  · simpa using hpf c p h

theorem addTx_insufficient_of_guard (pf : Portfolio) (tx : Tx)
    (h : (pos0 pf tx.sell).balance < tx.sell_size) :
    pf.addTx tx = AddTxResult.insufficientBalance (pf.entryOrInsert tx.sell).1 := by
  simp only [Portfolio.addTx]
  rw [entryOrInsert_snd, if_pos h]

theorem addTx_divzero_of_none (pf : Portfolio) (tx : Tx)
    (hguard : ¬ (pos0 pf tx.sell).balance < tx.sell_size)
    (havg : avgCost? pf tx = none) :
    pf.addTx tx = AddTxResult.divByZero := by
  have havg' : (if tx.sell.ticker = "USD" then some (1 : ℚ)
      else if (pos0 pf tx.sell).balance = 0 then none
      else some ((pos0 pf tx.sell).cost_base / (pos0 pf tx.sell).balance))
      = none := havg
  simp only [Portfolio.addTx]
  rw [entryOrInsert_snd, if_neg hguard, havg']

theorem deposit_preserves_nonneg (q : Currency → ℚ) (pf : Portfolio)
    (c : Currency) (a : ℚ) (hq : ∀ c', 0 ≤ q c') (hpf : PortfolioNonneg pf)
    (ha : 0 < a) : PortfolioNonneg (pf.deposit q c a) := by
  intro c' p hp
  rw [deposit_positions] at hp
  by_cases h : c' = c
  · rw [if_pos h] at hp
    obtain rfl := Option.some.inj hp
    constructor
    · show 0 ≤ (pos0 pf c).balance + a
      have hb := (pos0_nonneg pf c hpf).1
      linarith
    · intro husd
      have hct : c.ticker ≠ "USD" := h ▸ husd
      have hcu : ¬ c = usd := by
        intro he
        apply hct
        rw [he]
        rfl
      show 0 ≤ (if c = usd then (pos0 pf c).cost_base + a
        else (pos0 pf c).cost_base + a * q c)
      rw [if_neg hcu]
      exact add_nonneg ((pos0_nonneg pf c hpf).2 hct)
        (mul_nonneg ha.le (hq c))
  · rw [if_neg h] at hp
    exact hpf c' p hp

theorem addTx_preserves_nonneg (pf : Portfolio) (tx : Tx) (pf' : Portfolio)
    (hpf : PortfolioNonneg pf) (hs : 0 < tx.sell_size) (hb : 0 ≤ tx.buy_size)
    (h : pf.addTx tx = AddTxResult.ok pf') : PortfolioNonneg pf' := by
  by_cases hguard : (pos0 pf tx.sell).balance < tx.sell_size
  · rw [addTx_insufficient_of_guard pf tx hguard] at h
    cases h
  rcases havg : avgCost? pf tx with _ | avg
  · rw [addTx_divzero_of_none pf tx hguard havg] at h
    cases h
  obtain ⟨pf'', hok, hchar⟩ := addTx_ok_char pf tx avg hguard havg
  rw [hok] at h
  obtain rfl : pf'' = pf' := by injection h
  have hsb : tx.sell_size ≤ (pos0 pf tx.sell).balance := not_lt.mp hguard
  have hsbal : 0 ≤ (pos0 pf tx.sell).balance := le_trans hs.le hsb
  have havg_nonneg : 0 ≤ avg := by
    unfold avgCost? at havg
    by_cases husd : tx.sell.ticker = "USD"
    · rw [if_pos husd] at havg
      obtain rfl : (1 : ℚ) = avg := by injection havg
      norm_num
    · rw [if_neg husd] at havg
      have hbz : ¬ (pos0 pf tx.sell).balance = 0 := by
        intro h0
        rw [if_pos h0] at havg
        cases havg
      rw [if_neg hbz] at havg
      obtain rfl : (pos0 pf tx.sell).cost_base / (pos0 pf tx.sell).balance
          = avg := by injection havg
      exact div_nonneg ((pos0_nonneg pf tx.sell hpf).2 husd) hsbal
  have hsell_bal : 0 ≤ (sellUpd pf tx avg).balance := by
    show 0 ≤ (pos0 pf tx.sell).balance - tx.sell_size
    linarith
  have hsell_cost : tx.sell.ticker ≠ "USD" → 0 ≤ (sellUpd pf tx avg).cost_base := by
    intro husd
    unfold avgCost? at havg
    rw [if_neg husd] at havg
    have hbz : ¬ (pos0 pf tx.sell).balance = 0 := by
      intro h0
      rw [if_pos h0] at havg
      cases havg
    rw [if_neg hbz] at havg
    obtain rfl : (pos0 pf tx.sell).cost_base / (pos0 pf tx.sell).balance
        = avg := by injection havg
    show 0 ≤ (pos0 pf tx.sell).cost_base
      - (pos0 pf tx.sell).cost_base / (pos0 pf tx.sell).balance * tx.sell_size
    have hcost : 0 ≤ (pos0 pf tx.sell).cost_base :=
      (pos0_nonneg pf tx.sell hpf).2 husd
    have hmul : (pos0 pf tx.sell).cost_base / (pos0 pf tx.sell).balance
          * tx.sell_size
        ≤ (pos0 pf tx.sell).cost_base / (pos0 pf tx.sell).balance
          * (pos0 pf tx.sell).balance :=
      mul_le_mul_of_nonneg_left hsb (div_nonneg hcost hsbal)
    rw [div_mul_cancel₀ _ hbz] at hmul
    linarith
  have hremoved : 0 ≤ avg * tx.sell_size := mul_nonneg havg_nonneg hs.le
  have hbase_bal : 0 ≤ (buyBase pf tx avg).balance := by
    unfold buyBase
    by_cases htb : tx.buy = tx.sell
    · rw [if_pos htb]
      exact hsell_bal
    · rw [if_neg htb]
      exact (pos0_nonneg pf tx.buy hpf).1
  have hbase_cost : tx.buy.ticker ≠ "USD" → 0 ≤ (buyBase pf tx avg).cost_base := by
    intro hbusd
    unfold buyBase
    by_cases htb : tx.buy = tx.sell
    · rw [if_pos htb]
      exact hsell_cost (htb ▸ hbusd)
    · rw [if_neg htb]
      exact (pos0_nonneg pf tx.buy hpf).2 hbusd
  intro c p hp
  rw [hchar c] at hp
  by_cases hcb : c = tx.buy
  · rw [if_pos hcb] at hp
    obtain rfl := Option.some.inj hp
    constructor
    · show 0 ≤ (buyBase pf tx avg).balance + tx.buy_size
      exact add_nonneg hbase_bal hb
    · intro hcusd
      show 0 ≤ (buyBase pf tx avg).cost_base + avg * tx.sell_size
      exact add_nonneg (hbase_cost (hcb ▸ hcusd)) hremoved
  · rw [if_neg hcb] at hp
    by_cases hcs : c = tx.sell
    · rw [if_pos hcs] at hp
      obtain rfl := Option.some.inj hp
      exact ⟨hsell_bal, fun hcusd => hsell_cost (hcs ▸ hcusd)⟩
    · rw [if_neg hcs] at hp
      exact hpf c p hp

/-- C5 amended: for every sequence of positive-amount deposits (with
nonnegative quotes) and exchanges with positive sell size and nonnegative
buy size, run from a portfolio satisfying the invariant with no step
failing, every position keeps `balance ≥ 0`, and every non-valuation
(non-USD) position keeps `cost_base ≥ 0`. The USD position's `cost_base`
is excluded: it can go negative (see the counterexample), because selling
USD removes cost at the hardcoded average cost 1 while a profitable sale
credits the USD position with only the transferred cost basis. Starting
from any invariant-satisfying portfolio, the invariant holds after every
intermediate step of the sequence. -/
theorem runOps_preserves_nonneg (q : Currency → ℚ) (ops : List Op)
    (pf : Portfolio) (hq : ∀ c, 0 ≤ q c) (hpf : PortfolioNonneg pf)
    (hops : OpsWellFormed ops) : OptPortfolioNonneg (runOps q pf ops) := by
  induction ops generalizing pf with
  | nil => exact hpf
  | cons op rest ih =>
    have hop := hops op (List.mem_cons_self op rest)
    have hrest : OpsWellFormed rest := fun o ho => hops o (List.mem_cons_of_mem _ ho)
    cases op with
    | dep c a =>
      show OptPortfolioNonneg (runOps q (pf.deposit q c a) rest)
      exact ih (pf.deposit q c a) (deposit_preserves_nonneg q pf c a hq hpf hop) hrest
    | exch tx =>
      rcases hadd : pf.addTx tx with pf1 | pf1 | m
      · have hrun : runOps q pf (Op.exch tx :: rest) = runOps q pf1 rest := by
          simp [runOps, hadd]
        rw [hrun]
        exact ih pf1 (addTx_preserves_nonneg pf tx pf1 hpf hop.1 hop.2 hadd) hrest
      · have hrun : runOps q pf (Op.exch tx :: rest) = none := by
          simp [runOps, hadd]
        rw [hrun]
        trivial
      · have hrun : runOps q pf (Op.exch tx :: rest) = none := by
          simp [runOps, hadd]
        rw [hrun]
        trivial

/-- Witness for the amended C5 on a concrete two-step run. -/
theorem runOps_preserves_nonneg_witness :
    (∀ c, 0 ≤ qZero c) ∧ PortfolioNonneg Portfolio.empty ∧
      OpsWellFormed [Op.dep usd 4, Op.exch ⟨btc, 1, usd, 4⟩] ∧
      OptPortfolioNonneg
        (runOps qZero Portfolio.empty [Op.dep usd 4, Op.exch ⟨btc, 1, usd, 4⟩]) := by
  have h1 : ∀ c, 0 ≤ qZero c := fun _ => le_refl 0
  have h2 : PortfolioNonneg Portfolio.empty := by
    intro c p hp
    simp [Portfolio.empty] at hp
  have h3 : OpsWellFormed [Op.dep usd 4, Op.exch ⟨btc, 1, usd, 4⟩] := by
    intro op hop
    simp only [List.mem_cons, List.not_mem_nil, or_false] at hop
    rcases hop with rfl | rfl
    · show (0 : ℚ) < 4
      norm_num
    · show (0 : ℚ) < 4 ∧ (0 : ℚ) ≤ 1
      norm_num
  exact ⟨h1, h2, h3,
    runOps_preserves_nonneg qZero [Op.dep usd 4, Op.exch ⟨btc, 1, usd, 4⟩]
      Portfolio.empty h1 h2 h3⟩

/-- Counterexample to C5 as stated: replaying three valid trades after a
positive USD deposit, with no step failing, leaves the USD position with
`cost_base = -4 < 0`: buy 1 BTC for 4 USD, sell it for 8 USD (only the 4
of transferred cost basis comes back), then spend all 8 USD, which
removes cost at average cost 1. -/
theorem runOps_negative_cost_counterexample :
    (ValidTrade 1704883300 tradeA ∧ ValidTrade 1704883300 tradeB ∧
      ValidTrade 1704883300 tradeC) ∧
      (tradeA.to_tx = Except.ok ⟨btc, 1, usd, 4⟩ ∧
        tradeB.to_tx = Except.ok ⟨usd, 8, btc, 1⟩ ∧
        tradeC.to_tx = Except.ok ⟨btc, 2, usd, 8⟩) ∧
      (runOps qZero Portfolio.empty opsNegCost).map (fun pf => pf.positions usd)
        = some (some ⟨usd, 0, -4⟩) ∧ (-4 : ℚ) < 0 := by
  have hA : tradeA.to_tx = Except.ok ⟨btc, 1, usd, (1 : ℚ) * 3 + 1⟩ := rfl
  have hB : tradeB.to_tx = Except.ok ⟨usd, (1 : ℚ) * 9 - 1, btc, 1⟩ := rfl
  have hC : tradeC.to_tx = Except.ok ⟨btc, 2, usd, (2 : ℚ) * (7 / 2) + 1⟩ := rfl
  refine ⟨⟨?_, ?_, ?_⟩, ⟨?_, ?_, ?_⟩, ?_, by norm_num⟩
  · refine ⟨?_, ?_, ?_, ?_, ?_⟩ <;> norm_num [tradeA, MIN_TIMESTAMP]
  · refine ⟨?_, ?_, ?_, ?_, ?_⟩ <;> norm_num [tradeB, MIN_TIMESTAMP]
  · refine ⟨?_, ?_, ?_, ?_, ?_⟩ <;> norm_num [tradeC, MIN_TIMESTAMP]
  · rw [hA]
    norm_num
  · rw [hB]
    norm_num
  · rw [hC]
    norm_num
  · simp [opsNegCost, runOps, Portfolio.addTx, Portfolio.deposit,
      Portfolio.entryOrInsert, Portfolio.insertPos, Portfolio.empty,
      Position.new, qZero, btc, usd]
    norm_num

/-! ## C6: timestamp validation boundaries -/

/-- Counterexample to C6 as stated: a timestamp exactly equal to the
current wall-clock time is *accepted* (the code only rejects `ts > now`),
while the claim says every timestamp `≥ now` is rejected. -/
theorem ts_deserialize_accepts_now :
    ts_deserialize 1704883200 1704883200 = Except.ok ⟨1704883200, 0⟩ ∧
      (1704883200 : ℤ) ≤ 1704883200 :=
  ⟨rfl, le_refl _⟩

/-- C6 amended: timestamp validation accepts the floor constant
`1231027200` exactly, rejects any timestamp below the floor (one second
earlier included), rejects every timestamp *strictly* greater than the
current wall-clock time, and accepts a timestamp equal to the wall
clock. -/
theorem ts_deserialize_boundaries (now ts : ℤ) (hn : MIN_TIMESTAMP ≤ now)
    (hn2 : now ≤ MAX_UNIX_TIMESTAMP) :
    ts_deserialize now MIN_TIMESTAMP = Except.ok ⟨MIN_TIMESTAMP, 0⟩ ∧
      (ts < MIN_TIMESTAMP → ∃ e, ts_deserialize now ts = Except.error e) ∧
      (now < ts → ∃ e, ts_deserialize now ts = Except.error e) ∧
      ts_deserialize now now = Except.ok ⟨now, 0⟩ := by
  simp only [MIN_TIMESTAMP, MAX_UNIX_TIMESTAMP] at hn hn2
  unfold ts_deserialize MIN_TIMESTAMP MAX_UNIX_TIMESTAMP
  refine ⟨?_, ?_, ?_, ?_⟩
  · rw [if_neg (by omega), if_neg (by omega), if_neg (by omega)]
  · intro h
    exact ⟨_, by rw [if_pos h]⟩
  · intro h
    by_cases h2 : ts < 1231027200
    · exact ⟨_, by rw [if_pos h2]⟩
    · exact ⟨_, by rw [if_neg h2, if_pos h]⟩
  · rw [if_neg (by omega), if_neg (by omega), if_neg (by omega)]

/-- Witness for the amended C6 with wall clock `2024-01-10` and the
timestamp one second below the floor. -/
theorem ts_deserialize_boundaries_witness :
    (MIN_TIMESTAMP ≤ 1704883200 ∧ (1704883200 : ℤ) ≤ MAX_UNIX_TIMESTAMP) ∧
      (ts_deserialize 1704883200 MIN_TIMESTAMP
          = Except.ok ⟨MIN_TIMESTAMP, 0⟩ ∧
        ((1231027199 : ℤ) < MIN_TIMESTAMP →
          ∃ e, ts_deserialize 1704883200 1231027199 = Except.error e) ∧
        ((1704883200 : ℤ) < 1231027199 →
          ∃ e, ts_deserialize 1704883200 1231027199 = Except.error e) ∧
        ts_deserialize 1704883200 1704883200 = Except.ok ⟨1704883200, 0⟩) :=
  ⟨⟨by norm_num [MIN_TIMESTAMP], by norm_num [MAX_UNIX_TIMESTAMP]⟩,
   ts_deserialize_boundaries 1704883200 1231027199
     (by norm_num [MIN_TIMESTAMP]) (by norm_num [MAX_UNIX_TIMESTAMP])⟩

/-! ## C10: `Tx::parse` panics on short token lists -/

/-- C10: `Tx::parse` is not total: on `"1 btc for 2"` — a string holding
two parseable numbers but only four whitespace-separated tokens — it
reaches the unchecked indexing of token position 4 and panics instead of
returning a parse error. -/
theorem tx_parse_panics_on_short_input :
    (tokenize "1 btc for 2").length = 4 ∧
      ((tokenize "1 btc for 2").filterMap decStrToRat?).length = 2 ∧
      Tx.parse "1 btc for 2"
        = RustResult.panik "index out of bounds: the len is less than 5" :=
  ⟨rfl, rfl, rfl⟩

/-! ## C9: an unresolved ticker is a hard lookup error -/

theorem to_ids_error_of_missing (table : List Coin) (tickers : List String)
    (h : ∃ t ∈ tickers, symbolToId table (upperStr t) = none) :
    ∃ t ∈ tickers, symbolToId table (upperStr t) = none ∧
      to_ids table tickers = Except.error ("Ticker not found: " ++ t) := by
  induction tickers with
  | nil =>
    rcases h with ⟨t, ht, _⟩
    cases ht
  | cons t0 ts ih =>
    rcases hfound : symbolToId table (upperStr t0) with _ | id0
    · refine ⟨t0, List.mem_cons_self _ _, hfound, ?_⟩
      simp [to_ids, hfound]
    · have h' : ∃ t ∈ ts, symbolToId table (upperStr t) = none := by
        rcases h with ⟨t, ht, hmiss⟩
        rcases List.mem_cons.mp ht with rfl | hts
        · rw [hfound] at hmiss
          cases hmiss
        · exact ⟨t, hts, hmiss⟩
      obtain ⟨t, hts, hmiss, herr⟩ := ih h'
      refine ⟨t, List.mem_cons_of_mem _ hts, hmiss, ?_⟩
      simp [to_ids, hfound, herr]

/-- C9: if any requested ticker has no entry in the price-id lookup
table, the quote lookup returns a hard error naming a missing ticker (the
first one), for every fetch behavior — in particular it never returns a
quote map that silently omits the unresolved ticker. -/
theorem get_quotes_missing_ticker (table : List Coin)
    (fetch : List String → List (String × ℚ)) (tickers : List String)
    (h : ∃ t ∈ tickers, symbolToId table (upperStr t) = none) :
    ∃ t ∈ tickers, symbolToId table (upperStr t) = none ∧
      get_quotes table fetch tickers
        = RustResult.err ("Ticker not found: " ++ t) := by
  obtain ⟨t, ht, hmiss, herr⟩ := to_ids_error_of_missing table tickers h
  refine ⟨t, ht, hmiss, ?_⟩
  simp [get_quotes, herr]

/-- Witness for C9: a table having only BTC cannot quote ETH, whatever
the price source returns. -/
theorem get_quotes_missing_ticker_witness :
    (∃ t ∈ ["ETH"], symbolToId [⟨"bitcoin", "BTC", "Bitcoin"⟩] (upperStr t)
        = none) ∧
      (∃ t ∈ ["ETH"], symbolToId [⟨"bitcoin", "BTC", "Bitcoin"⟩] (upperStr t)
          = none ∧
        get_quotes [⟨"bitcoin", "BTC", "Bitcoin"⟩] (fun _ => []) ["ETH"]
          = RustResult.err ("Ticker not found: " ++ t)) :=
  ⟨⟨"ETH", by simp, rfl⟩,
   get_quotes_missing_ticker [⟨"bitcoin", "BTC", "Bitcoin"⟩] (fun _ => [])
     ["ETH"] ⟨"ETH", by simp, rfl⟩⟩

/-! ## C8: serialize/parse round trip -/

theorem splitBy_all_false (p : Char → Bool) (l : List Char)
    (h : ∀ a ∈ l, p a = false) : splitBy p l = [l] := by
  induction l with
  | nil => rfl
  | cons c cs ih =>
    have hc : p c = false := h c (List.mem_cons_self _ _)
    have ih' := ih (fun a ha => h a (List.mem_cons_of_mem _ ha))
    simp [splitBy, hc, ih']

theorem splitBy_append_sep (p : Char → Bool) (l1 : List Char) (c : Char)
    (l2 : List Char) (h1 : ∀ a ∈ l1, p a = false) (hc : p c = true) :
    splitBy p (l1 ++ c :: l2) = l1 :: splitBy p l2 := by
  induction l1 with
  | nil => simp [splitBy, hc]
  | cons a l1 ih =>
    have ha : p a = false := h1 a (List.mem_cons_self _ _)
    have ih' := ih (fun x hx => h1 x (List.mem_cons_of_mem _ hx))
    simp [splitBy, ha, ih']

/-- Counterexample to C8 as stated: the valid trade `tradeSub`, built the
way `trade::tx_to_csv` builds trades from `OffsetDateTime::now_utc()`,
carries a sub-second timestamp component; serialization emits only whole
seconds, so re-parsing yields a `created_at` different from the
original's — the round trip is not field-for-field equality. -/
theorem trade_roundtrip_counterexample :
    ValidTrade 1704883300 tradeSub ∧
      ts_deserialize 1704883300 (ts_serialize tradeSub.created_at)
        = Except.ok ⟨1704883200, 0⟩ ∧
      tradeSub.created_at ≠ ⟨1704883200, 0⟩ := by
  refine ⟨?_, rfl, ?_⟩
  · refine ⟨?_, ?_, ?_, ?_, ?_⟩ <;> norm_num [tradeSub, MIN_TIMESTAMP]
  · intro h
    have : (500000000 : ℕ) = 0 := congrArg DateTime.nanos h
    simp at this

theorem pair_roundtrip (b : Ticker) (q : QuoteCurrency)
    (hne : b.id ≠ "") (hup : upperChars b.id.data = b.id.data)
    (hslash : '/' ∉ b.id.data)
    (hws : ∃ ch ∈ b.id.data, ch.isWhitespace = false) :
    TradingPair.deserialize (TradingPair.serialize ⟨b, q⟩) = Except.ok ⟨b, q⟩ := by
  have h1 : ∀ a ∈ b.id.data, (decide (a = '/')) = false := by
    intro a ha
    simp only [decide_eq_false_iff_not]
    intro he
    exact hslash (he ▸ ha)
  have hall : b.id.data.all Char.isWhitespace = false := by
    rcases hws with ⟨ch, hch, hchw⟩
    apply List.all_eq_false.mpr
    exact ⟨ch, hch, by simp [hchw]⟩
  have hsplit : splitChar '/' (b.id.data ++ '/' :: upperChars q.toStr.data)
      = [b.id.data, upperChars q.toStr.data] := by
    unfold splitChar
    rw [splitBy_append_sep _ _ _ _ h1 (by simp)]
    rw [splitBy_all_false]
    cases q <;> decide
  have hdata : (TradingPair.serialize ⟨b, q⟩).data
      = b.id.data ++ '/' :: upperChars q.toStr.data := by
    show upperChars (b.id.data ++ '/' :: q.toStr.data) = _
    unfold upperChars
    rw [List.map_append, List.map_cons]
    show upperChars b.id.data ++ '/' :: upperChars q.toStr.data = _
    rw [hup]
    rfl
  unfold TradingPair.deserialize
  rw [hdata, hsplit]
  show (match [String.mk (upperChars b.id.data),
      String.mk (upperChars (upperChars q.toStr.data))] with
    | [p0, p1] =>
      if p0.data.all Char.isWhitespace then Except.error "base can't be empty"
      else do
        let bt ← Ticker.fromStr p0
        let qc ← QuoteCurrency.fromStr p1
        Except.ok (⟨bt, qc⟩ : TradingPair)
    | _ => Except.error ("expected format BASE/QUOTE, got "
        ++ TradingPair.serialize ⟨b, q⟩)) = Except.ok ⟨b, q⟩
  have hqq : String.mk (upperChars (upperChars q.toStr.data))
      = String.mk q.toStr.data := by
    cases q <;> rfl
  rw [hup, hqq]
  show (if b.id.data.all Char.isWhitespace then Except.error "base can't be empty"
    else do
      let bt ← Ticker.fromStr (String.mk b.id.data)
      let qc ← QuoteCurrency.fromStr (String.mk q.toStr.data)
      Except.ok (⟨bt, qc⟩ : TradingPair)) = Except.ok ⟨b, q⟩
  rw [hall]
  simp only [Bool.false_eq_true, if_false]
  have hbt : Ticker.fromStr (String.mk b.id.data) = Except.ok b := by
    unfold Ticker.fromStr
    rw [if_neg]
    exact hne
  have hqc : QuoteCurrency.fromStr (String.mk q.toStr.data) = Except.ok q := by
    cases q <;> rfl
  rw [hbt, hqc]
  rfl

/-- C8 amended: for every valid trade whose timestamp is a whole second
and whose base ticker is a non-blank uppercase string without `/` (every
trade parsed from a record satisfies this), serializing and re-parsing
preserves the timestamp, the trading pair and the side exactly. The
numeric fields are excluded: `amount`, `price` and `fee` are re-parsed
through `f64` (`positive_decimal` deserializes via `f64::deserialize` and
`Decimal::try_from`), whose rounding is outside this model. -/
theorem trade_roundtrip_fields (now : ℤ) (t : Trade)
    (hval : ValidTrade now t) (hnow : now ≤ MAX_UNIX_TIMESTAMP)
    (hnanos : t.created_at.nanos = 0)
    (hne : t.pair.base.id ≠ "")
    (hup : upperChars t.pair.base.id.data = t.pair.base.id.data)
    (hslash : '/' ∉ t.pair.base.id.data)
    (hws : ∃ ch ∈ t.pair.base.id.data, ch.isWhitespace = false) :
    ts_deserialize now (ts_serialize t.created_at) = Except.ok t.created_at ∧
      TradingPair.deserialize (TradingPair.serialize t.pair)
        = Except.ok t.pair ∧
      Side.deserialize (Side.serialize t.side) = Except.ok t.side := by
  obtain ⟨hlo, hhi, -, -, -⟩ := hval
  refine ⟨?_, ?_, ?_⟩
  · have hca : t.created_at = ⟨t.created_at.secs, 0⟩ := by
      rw [← hnanos]
    unfold ts_serialize ts_deserialize
    simp only [MIN_TIMESTAMP, MAX_UNIX_TIMESTAMP] at hlo hnow ⊢
    rw [if_neg (by omega), if_neg (by omega), if_neg (by omega)]
    rw [hca]
  · have h := pair_roundtrip t.pair.base t.pair.quote hne hup hslash hws
    simpa using h
  · cases t.side <;> rfl

/-- Witness for the amended C8 on the concrete trade
`SELL 1 BTC/USD @ 9 fee 1` at timestamp `1704883200`. -/
theorem trade_roundtrip_fields_witness :
    (ValidTrade 1704883300 tradeB ∧ (1704883300 : ℤ) ≤ MAX_UNIX_TIMESTAMP ∧
      tradeB.created_at.nanos = 0 ∧ tradeB.pair.base.id ≠ "" ∧
      upperChars tradeB.pair.base.id.data = tradeB.pair.base.id.data ∧
      '/' ∉ tradeB.pair.base.id.data ∧
      (∃ ch ∈ tradeB.pair.base.id.data, ch.isWhitespace = false)) ∧
      (ts_deserialize 1704883300 (ts_serialize tradeB.created_at)
          = Except.ok tradeB.created_at ∧
        TradingPair.deserialize (TradingPair.serialize tradeB.pair)
          = Except.ok tradeB.pair ∧
        Side.deserialize (Side.serialize tradeB.side)
          = Except.ok tradeB.side) := by
  have hv : ValidTrade 1704883300 tradeB := by
    refine ⟨?_, ?_, ?_, ?_, ?_⟩ <;> norm_num [tradeB, MIN_TIMESTAMP]
  refine ⟨⟨hv, by norm_num [MAX_UNIX_TIMESTAMP], rfl, by decide, by decide,
    by decide, ⟨'B', by decide, by decide⟩⟩, ?_⟩
  exact trade_roundtrip_fields 1704883300 tradeB hv
    (by norm_num [MAX_UNIX_TIMESTAMP]) rfl (by decide) (by decide) (by decide)
    ⟨'B', by decide, by decide⟩

end PortfolioTracker
